import Mathlib

/-
Shallow embedding of the two bulletin watchers of this repository:
  src/kalmate_notice_watcher_multi.py  (the KALMATE notice watcher)
  src/agent_koreanair_watcher.py       (the Korean Air agent bulletin watcher)
The embedding covers the change-detection core: post records, the seen-set
dictionary, date extraction and validation, deduplication, the stable
descending sort used for ordering, the strategy dispatch of the HTML parser,
and the post-extraction part of both main functions (baseline snapshot versus
incremental diffing, notification, and state persistence).
-/

namespace Kalc

/-! ## Small Python primitives -/

/-- Decimal value of a digit character. -/
def digitVal (c : Char) : Nat := c.toNat - 48

/-- Fold a list of decimal digit characters to the number they denote. -/
def natFromDigits (l : List Char) : Nat := l.foldl (fun n c => 10 * n + digitVal c) 0

/-- Python int() as it is applied in these scripts: every string reaching it is a
run of decimal digits, anything else raises ValueError (modelled as none). -/
def pyNat? (l : List Char) : Option Nat :=
  if l ≠ [] ∧ l.all Char.isDigit then some (natFromDigits l) else none

/-- Zero-padded decimal rendering of a natural number, Python format spec 0wd. -/
def padNum (w : Nat) (n : Nat) : String :=
  let ds := Nat.toDigits 10 n
  String.mk (List.replicate (w - ds.length) '0' ++ ds)

/-- Python str.split on a dash, over the character list of the string. -/
def splitOnDash : List Char → List (List Char)
  | [] => [[]]
  | c :: cs =>
    let r := splitOnDash cs
    if c == '-' then [] :: r
    else
      match r with
      | [] => [[c]]
      | h :: t => (c :: h) :: t

/-- Python regex class backslash-s, the whitespace characters these pages contain. -/
def pySpace (c : Char) : Bool :=
  c == ' ' || c == '\t' || c == '\n' || c == '\r' || c == '\x0b' || c == '\x0c'

/-- Python regex word character (class backslash-w): alphanumerics, underscore and,
for the Korean text these scripts scan, the Hangul letter and syllable blocks. -/
def isWordChar (c : Char) : Bool :=
  c.isAlphanum || c == '_' ||
  (0xAC00 ≤ c.toNat && c.toNat ≤ 0xD7A3) ||
  (0x1100 ≤ c.toNat && c.toNat ≤ 0x11FF) ||
  (0x3130 ≤ c.toNat && c.toNat ≤ 0x318F)

/-- Python slice l[:n], which also accepts negative n (drop from the end). -/
def pySlice {α : Type} (n : Int) (l : List α) : List α :=
  if 0 ≤ n then l.take n.toNat else l.take (l.length - n.natAbs)

/-! ## Data model

Post is the record both scripts build for one bulletin entry; in the KALMATE
watcher the id is the numeric seq_no, in the agent watcher the detail URL. -/

structure Post where
  id : String
  title : String
  url : String
  date : Option String
deriving DecidableEq, Repr

/-- Persisted per-post record, the value stored in seen_posts.json:
both scripts write the fields title, url, date and ts (epoch seconds). -/
structure SeenRecord where
  title : String
  url : String
  date : Option String
  ts : Int
deriving DecidableEq, Repr

/-! ## Python dict with insertion order

Python dicts preserve key insertion order; assigning to an existing key keeps
its position and replaces the value, assigning a fresh key appends it. -/

abbrev Dict (α : Type) := List (String × α)

def dictContains {α : Type} (d : Dict α) (k : String) : Bool :=
  d.any (fun e => decide (e.1 = k))

def dictGet? {α : Type} (d : Dict α) (k : String) : Option α :=
  (d.find? (fun e => decide (e.1 = k))).map Prod.snd

def dictSet {α : Type} (d : Dict α) (k : String) (v : α) : Dict α :=
  if dictContains d k then d.map (fun e => if e.1 = k then (k, v) else e)
  else d ++ [(k, v)]

abbrev SeenDict := Dict SeenRecord

/-! ## Date handling of the agent watcher -/

/-- Characters of the first separator class of the _to_ymd regex. -/
def ymdSep1 (c : Char) : Bool := c == '.' || c == '-' || c == '년' || pySpace c

/-- Characters of the second separator class of the _to_ymd regex. -/
def ymdSep2 (c : Char) : Bool := c == '.' || c == '-' || c == '월' || pySpace c

/-- Greedy match of one or two digits at the head of the list, no constraint after. -/
def take12 : List Char → Option Nat
  | c1 :: c2 :: _ =>
    if c1.isDigit then
      some (if c2.isDigit then 10 * digitVal c1 + digitVal c2 else digitVal c1)
    else none
  | [c1] => if c1.isDigit then some (digitVal c1) else none
  | [] => none

/-- Match the literal 20 followed by two digits (the year group of every date
regex in both scripts), returning the year and the remainder. -/
def matchYear : List Char → Option (Nat × List Char)
  | '2' :: '0' :: c3 :: c4 :: rest =>
    if c3.isDigit && c4.isDigit then some (2000 + 10 * digitVal c3 + digitVal c4, rest)
    else none
  | _ => none

/-- Tail of the _to_ymd regex after the year and the first separator run: the
month group (one or two digits, greedy with backtracking), the second separator
run, then the day group (one or two digits, greedy). -/
def ymdTail : List Char → Option (Nat × Nat)
  | [] => none
  | c1 :: rest1 =>
    if c1.isDigit then
      match rest1 with
      | [] => none
      | c2 :: rest2 =>
        if c2.isDigit then
          match take12 (rest2.dropWhile ymdSep2) with
          | some g3 => some (10 * digitVal c1 + digitVal c2, g3)
          | none =>
            -- the two-digit month found no day group; the regex backtracks to a
            -- one-digit month, and the day group then starts at the second digit
            match take12 (c2 :: rest2) with
            | some g3 => some (digitVal c1, g3)
            | none => none
        else
          match take12 (rest1.dropWhile ymdSep2) with
          | some g3 => some (digitVal c1, g3)
          | none => none
    else none

/-- re.search of the _to_ymd pattern: try each start position left to right. -/
def searchToYmd : List Char → Option (Nat × Nat × Nat)
  | [] => none
  | c :: cs =>
    match
      (match matchYear (c :: cs) with
       | some (y, rest) =>
         match ymdTail (rest.dropWhile ymdSep1) with
         | some (mo, d) => some (y, mo, d)
         | none => none
       | none => none) with
    | some r => some r
    | none => searchToYmd cs

/-- Python format string yyyy-mm-dd with zero padding, shared by both scripts. -/
def fmtYmd (y mo d : Nat) : String := padNum 4 y ++ "-" ++ padNum 2 mo ++ "-" ++ padNum 2 d

/-- agent_koreanair_watcher.py lines 93 to 104, function _to_ymd: search the date
pattern, then accept only months 1 to 12 and days 1 to 31, else report no date. -/
def to_ymd (s : String) : Option String :=
  if s = "" then none
  else
    match searchToYmd s.data with
    | none => none
    | some (y, mo, d) =>
      if 1 ≤ mo ∧ mo ≤ 12 ∧ 1 ≤ d ∧ d ≤ 31 then some (fmtYmd y mo d) else none

/-! ## Date handling of the KALMATE watcher -/

/-- Separator class of the first DATE_PATS pattern: dot, dash or slash. -/
def datePat1Sep (c : Char) : Bool := c == '.' || c == '-' || c == '/'

/-- Month group of the first DATE_PATS pattern: one or two digits (greedy with
backtracking) immediately followed by a separator; returns the remainder after
the separator. -/
def pat1G2 : List Char → Option (Nat × List Char)
  | c1 :: c2 :: c3 :: rest =>
    if c1.isDigit then
      if c2.isDigit then
        if datePat1Sep c3 then some (10 * digitVal c1 + digitVal c2, rest)
        else none -- backtracking to one digit would need the second digit to be a separator
      else if datePat1Sep c2 then some (digitVal c1, c3 :: rest)
      else none
    else none
  | [c1, c2] => if c1.isDigit && datePat1Sep c2 then some (digitVal c1, []) else none
  | _ => none

/-- Day group of the first DATE_PATS pattern: one or two digits (greedy with
backtracking) followed by a word boundary. -/
def pat1G3 : List Char → Option Nat
  | c1 :: c2 :: c3 :: _ =>
    if c1.isDigit then
      if c2.isDigit then
        if !isWordChar c3 then some (10 * digitVal c1 + digitVal c2)
        else none -- backtracking to one digit puts the boundary before a digit
      else if !isWordChar c2 then some (digitVal c1)
      else none
    else none
  | [c1, c2] =>
    if c1.isDigit then
      if c2.isDigit then some (10 * digitVal c1 + digitVal c2)
      else if !isWordChar c2 then some (digitVal c1)
      else none
    else none
  | [c1] => if c1.isDigit then some (digitVal c1) else none
  | [] => none

/-- Attempt the first DATE_PATS pattern at the current position (the word
boundary before the year is checked by the caller). -/
def pat1At (l : List Char) : Option (Nat × Nat × Nat) :=
  match matchYear l with
  | some (y, rest) =>
    match rest with
    | [] => none
    | s :: rest2 =>
      if datePat1Sep s then
        match pat1G2 rest2 with
        | some (mo, rest3) =>
          match pat1G3 rest3 with
          | some d => some (y, mo, d)
          | none => none
        | none => none
      else none
  | none => none

/-- re.search of the first DATE_PATS pattern, tracking the previous character
for the leading word boundary (the year starts with the word character 2). -/
def searchPat1 (prev : Option Char) : List Char → Option (Nat × Nat × Nat)
  | [] => none
  | c :: cs =>
    let boundary := match prev with | none => true | some p => !isWordChar p
    match (if boundary then pat1At (c :: cs) else none) with
    | some r => some r
    | none => searchPat1 (some c) cs

/-- Skip a greedy run of whitespace, then require the given marker character;
returns the remainder after the marker. -/
def afterSpacesChar (marker : Char) (l : List Char) : Option (List Char) :=
  match l.dropWhile pySpace with
  | c :: rest => if c == marker then some rest else none
  | [] => none

/-- Digit group of the second DATE_PATS pattern: one or two digits (greedy with
backtracking), whitespace, then the given Hangul marker character. -/
def pat2Group (marker : Char) : List Char → Option (Nat × List Char)
  | [] => none
  | [c1] =>
    if c1.isDigit then
      match afterSpacesChar marker [] with
      | some r => some (digitVal c1, r)
      | none => none
    else none
  | c1 :: c2 :: rest =>
    if c1.isDigit then
      if c2.isDigit then
        match afterSpacesChar marker rest with
        | some r => some (10 * digitVal c1 + digitVal c2, r)
        | none =>
          match afterSpacesChar marker (c2 :: rest) with
          | some r => some (digitVal c1, r)
          | none => none
      else
        match afterSpacesChar marker (c2 :: rest) with
        | some r => some (digitVal c1, r)
        | none => none
    else none

/-- Attempt the second DATE_PATS pattern (year, 년, month, 월, day, 일 with
optional whitespace) at the current position. -/
def pat2At (l : List Char) : Option (Nat × Nat × Nat) :=
  match matchYear l with
  | some (y, rest) =>
    match afterSpacesChar '년' rest with
    | some r1 =>
      match pat2Group '월' (r1.dropWhile pySpace) with
      | some (mo, r2) =>
        match pat2Group '일' (r2.dropWhile pySpace) with
        | some (d, r3) =>
          match r3 with
          | [] => some (y, mo, d)
          | c :: _ => if !isWordChar c then some (y, mo, d) else none
        | none => none
      | none => none
    | none => none
  | none => none

/-- re.search of the second DATE_PATS pattern. -/
def searchPat2 (prev : Option Char) : List Char → Option (Nat × Nat × Nat)
  | [] => none
  | c :: cs =>
    let boundary := match prev with | none => true | some p => !isWordChar p
    match (if boundary then pat2At (c :: cs) else none) with
    | some r => some r
    | none => searchPat2 (some c) cs

/-- kalmate_notice_watcher_multi.py lines 128 to 137, function first_date_in_text:
the first DATE_PATS pattern that matches decides the result, and the matched
groups are formatted as yyyy-mm-dd without any range validation. -/
def first_date_in_text (s : String) : Option String :=
  match searchPat1 none s.data with
  | some (y, mo, d) => some (fmtYmd y mo d)
  | none =>
    match searchPat2 none s.data with
    | some (y, mo, d) => some (fmtYmd y mo d)
    | none => none

/-- kalmate_notice_watcher_multi.py lines 118 to 126, function date_to_int:
yyyy-mm-dd becomes the integer yyyymmdd, a missing or malformed date becomes -1. -/
def date_to_int (d : Option String) : Int :=
  match d with
  | none => -1
  | some s =>
    if s = "" then -1
    else
      match splitOnDash s.data with
      | [y, m, dd] =>
        match pyNat? y, pyNat? m, pyNat? dd with
        | some yn, some mn, some dn =>
          (natFromDigits ((padNum 4 yn).data ++ (padNum 2 mn).data ++ (padNum 2 dn).data) : Int)
        | _, _, _ => -1
      | _ => -1

/-- kalmate_notice_watcher_multi.py lines 162 to 166, function safe_int: strip
every non-digit and parse what remains, -1 when nothing remains. -/
def safe_int (s : String) : Int :=
  let ds := s.data.filter Char.isDigit
  if ds.isEmpty then -1 else (natFromDigits ds : Int)

/-- kalmate_notice_watcher_multi.py lines 168 to 170, function sort_key_post:
newest date first, then largest seq_no. -/
def sort_key_post (p : Post) : Int × Int := (date_to_int p.date, safe_int p.id)

/-! ## Stable descending sort

Python sorted with a key and reverse=True is a stable sort: elements whose keys
compare equal retain their original relative order, and otherwise keys descend.
It is modelled by a stable insertion sort, which has exactly this behaviour. -/

def insertDescBy {α : Type} (le : α → α → Bool) (x : α) : List α → List α
  | [] => [x]
  | y :: ys => if le x y then y :: insertDescBy le x ys else x :: y :: ys

def pySortDescBy {α : Type} (le : α → α → Bool) (l : List α) : List α :=
  l.foldl (fun acc x => insertDescBy le x acc) []

/-- Python tuple comparison on a pair of ints. -/
def lexLe2 (a b : Int × Int) : Bool :=
  decide (a.1 < b.1) || (decide (a.1 = b.1) && decide (a.2 ≤ b.2))

/-- Python tuple comparison on a triple of nats. -/
def lexLe3 (a b : Nat × Nat × Nat) : Bool :=
  decide (a.1 < b.1) ||
    (decide (a.1 = b.1) &&
      (decide (a.2.1 < b.2.1) || (decide (a.2.1 = b.2.1) && decide (a.2.2 ≤ b.2.2))))

def kalPostLe (p q : Post) : Bool := lexLe2 (sort_key_post p) (sort_key_post q)

/-- sorted(posts, key=sort_key_post, reverse=True) of the KALMATE watcher. -/
def kalSortDesc (l : List Post) : List Post := pySortDescBy kalPostLe l

/-! ## Deduplication -/

/-- kalmate_notice_watcher_multi.py lines 390 to 392: uniq_map[p.id] = p over a
Python dict, so the first occurrence of an id fixes its position and a later
duplicate replaces the stored record. -/
def uniq_map (l : List Post) : Dict Post := l.foldl (fun d p => dictSet d p.id p) []

def dictValues {α : Type} (d : Dict α) : List α := d.map Prod.snd

/-- Deduplicate by id and sort newest first, the combination applied at
kalmate_notice_watcher_multi.py lines 250 to 251, 267 to 268, 288 to 289 and
390 to 393. -/
def kalSortedUniq (l : List Post) : List Post := kalSortDesc (dictValues (uniq_map l))

/-- agent_koreanair_watcher.py lines 360 to 367, end of collect_posts_by_click:
walk the collected posts keeping the first occurrence of every id. -/
def dedupGo (uniq : List String) : List Post → List Post
  | [] => []
  | p :: ps => if p.id ∈ uniq then dedupGo uniq ps else p :: dedupGo (p.id :: uniq) ps

def dedup_by_id (posts : List Post) : List Post := dedupGo [] posts

/-! ## Agent watcher sort key -/

/-- re.match of the anchored pattern four digits, dash, two digits, dash, two
digits at the start of the string (agent_koreanair_watcher.py lines 409 to 413). -/
def matchYmd4 (s : String) : Option (Nat × Nat × Nat) :=
  match s.data with
  | d1 :: d2 :: d3 :: d4 :: s1 :: m1 :: m2 :: s2 :: e1 :: e2 :: _ =>
    if d1.isDigit && d2.isDigit && d3.isDigit && d4.isDigit && (s1 == '-') &&
        m1.isDigit && m2.isDigit && (s2 == '-') && e1.isDigit && e2.isDigit then
      some (natFromDigits [d1, d2, d3, d4], natFromDigits [m1, m2], natFromDigits [e1, e2])
    else none
  | _ => none

/-- agent_koreanair_watcher.py lines 409 to 413, key_func inside main: the parsed
date triple, or (0, 0, 0) when the date is absent or does not match. -/
def key_func (p : Post) : Nat × Nat × Nat :=
  match matchYmd4 (p.date.getD "") with
  | some k => k
  | none => (0, 0, 0)

def agentPostLe (p q : Post) : Bool := lexLe3 (key_func p) (key_func q)

/-- posts.sort(key=key_func, reverse=True) of the agent watcher. -/
def agentSortDesc (l : List Post) : List Post := pySortDescBy agentPostLe l

/-! ## HTML parser strategy dispatch of the KALMATE watcher -/

/-- kalmate_notice_watcher_multi.py lines 234 to 291, parse_notice_posts_from_html.
The three extraction strategies themselves (noticedetail anchors, NoticeView
hrefs, and the regex seq scan followed by detail fetches) run BeautifulSoup and
live HTTP, so their candidate lists enter as parameters; the function embeds the
dispatch of the source: each strategy result is deduplicated by id and sorted
newest first, and the first strategy producing any candidate decides the output. -/
def parse_notice_posts_from_html (strat1 strat2 strat3 : List Post) : List Post :=
  if !strat1.isEmpty then kalSortedUniq strat1
  else if !strat2.isEmpty then kalSortedUniq strat2
  else if !strat3.isEmpty then kalSortedUniq strat3
  else []

/-- Modelled from the spec: the chain of responsibility that stops at the first
extraction strategy yielding at least one result. -/
def firstNonemptyStrategy (ls : List (List Post)) : List Post :=
  match ls.find? (fun l => !l.isEmpty) with
  | some l => l
  | none => []

/-! ## State persistence -/

/-- Filesystem effects the scripts perform on persistent watcher state. A
writeFile is one direct open-for-write of the named path with the serialized
mapping as content, writeFlag creates the baseline marker file, and rename is
the atomic-replace primitive (which, as proved below, the scripts never use). -/
inductive FsOp where
  | writeFile (path : String) (data : SeenDict)
  | writeFlag (path : String)
  | rename (src dst : String)
deriving DecidableEq, Repr

def isRename : FsOp → Bool
  | FsOp.rename _ _ => true
  | _ => false

def STATE_FILE : String := "seen_posts.json"
def KAL_BASELINE_FLAG : String := ".kalmate_baseline_done"
def AGENT_BASELINE_FLAG : String := ".kal_baseline_done"

/-- save_seen of both scripts (kalmate_notice_watcher_multi.py lines 329 to 331,
agent_koreanair_watcher.py lines 70 to 71): a single direct write of the
serialized mapping into the state file, in place. -/
def save_seen (d : SeenDict) : List FsOp := [FsOp.writeFile STATE_FILE d]

/-! ## The change-detection runs -/

/-- Record written into the seen dict for an observed post, with ts = now. -/
def seenRecordOf (p : Post) (now : Int) : SeenRecord :=
  { title := p.title, url := p.url, date := p.date, ts := now }

/-- Register every post of the list in the seen dict (the for loops at
kalmate_notice_watcher_multi.py lines 402 to 403 and 416 to 417, and
agent_koreanair_watcher.py lines 422 to 423 and 435 to 436). -/
def registerAll (seen : SeenDict) (ps : List Post) (now : Int) : SeenDict :=
  ps.foldl (fun s p => dictSet s p.id (seenRecordOf p now)) seen

/-- Outcome of one run: the new seen dict, the baseline marker state, the
notification that was attempted (its header tag and the posts it listed, none
when no notification was attempted), and the filesystem effects. -/
structure RunOut where
  seen : SeenDict
  flag : Bool
  sent : Option (String × List Post)
  fs : List FsOp
deriving DecidableEq, Repr

/-- kalmate_notice_watcher_multi.py lines 355 to 421, main, from the point where
all_posts has been collected. Inputs: FIRST_RUN_NOTIFY, the existence of the
baseline flag file, FIRST_RUN_TOP_N, the loaded seen dict, the collected posts,
the current time, and whether the Telegram delivery succeeds. notify_telegram
logs a failed delivery and returns nothing, so deliveryOk cannot influence the
run; it is kept as an input precisely to state that fact. -/
def kalmateRun (firstRunNotify : Bool) (baselineFlag : Bool) (topN : Int)
    (seen : SeenDict) (allPosts : List Post) (now : Int) (deliveryOk : Bool) : RunOut :=
  let _ := deliveryOk
  let baselineNeeded := firstRunNotify && !baselineFlag
  let allPostsSorted := kalSortedUniq allPosts
  if baselineNeeded && !allPostsSorted.isEmpty then
    let topn := allPostsSorted.take (max 1 topN).toNat
    let seen1 := registerAll seen allPostsSorted now
    { seen := seen1, flag := true, sent := some ("baseline", topn),
      fs := save_seen seen1 ++ [FsOp.writeFlag KAL_BASELINE_FLAG] }
  else
    let newPosts := allPostsSorted.filter (fun p => !dictContains seen p.id)
    if !newPosts.isEmpty then
      let newSorted := kalSortDesc newPosts
      let seen1 := registerAll seen newSorted now
      { seen := seen1, flag := baselineFlag, sent := some ("new", newSorted),
        fs := save_seen seen1 }
    else
      { seen := seen, flag := baselineFlag, sent := none, fs := [] }

/-- agent_koreanair_watcher.py lines 370 to 440, main, from the point where
collect_posts_by_click has returned (its output is already deduplicated).
Inputs: FORCE_SNAPSHOT, the existence of the baseline flag file, SNAPSHOT_TOP_N,
the loaded seen dict, the collected posts, the current time, and whether the
Telegram delivery succeeds (ignored by the control flow, as in the source). -/
def agentRun (forceSnapshot : Bool) (baselineFlag : Bool) (topN : Int)
    (seen : SeenDict) (collected : List Post) (now : Int) (deliveryOk : Bool) : RunOut :=
  let _ := deliveryOk
  let wantSnapshot := !baselineFlag || forceSnapshot
  if collected.isEmpty then
    { seen := seen, flag := baselineFlag, sent := none, fs := [] }
  else
    let posts := agentSortDesc collected
    if wantSnapshot then
      let topn := pySlice topN posts
      let seen1 := registerAll seen posts now
      { seen := seen1, flag := true, sent := some ("snapshot", topn),
        fs := save_seen seen1 ++ [FsOp.writeFlag AGENT_BASELINE_FLAG] }
    else
      let newPosts := posts.filter (fun p => !dictContains seen p.id)
      if !newPosts.isEmpty then
        let seen1 := registerAll seen newPosts now
        { seen := seen1, flag := baselineFlag, sent := some ("new", newPosts),
          fs := save_seen seen1 }
      else
        { seen := seen, flag := baselineFlag, sent := none, fs := [] }

/-! ## Traces of repeated runs -/

/-- Inputs of one run inside a multi-run trace. -/
structure RunIn where
  firstRunNotify : Bool
  posts : List Post
  now : Int
  deliveryOk : Bool
deriving DecidableEq, Repr

/-- Baseline flag after each successive KALMATE run. -/
def kalmateFlags (topN : Int) : SeenDict → Bool → List RunIn → List Bool
  | _, _, [] => []
  | seen, flag, i :: rest =>
    let r := kalmateRun i.firstRunNotify flag topN seen i.posts i.now i.deliveryOk
    r.flag :: kalmateFlags topN r.seen r.flag rest

/-- Baseline flag after each successive agent run, without the force flag. -/
def agentFlags (topN : Int) : SeenDict → Bool → List RunIn → List Bool
  | _, _, [] => []
  | seen, flag, i :: rest =>
    let r := agentRun false flag topN seen i.posts i.now i.deliveryOk
    r.flag :: agentFlags topN r.seen r.flag rest

/-- Number of false-to-true transitions in a boolean trace. -/
def countRises : List Bool → Nat
  | a :: b :: t => (if !a && b then 1 else 0) + countRises (b :: t)
  | _ => 0

/-! ## Concrete example inputs used by witnesses and counterexamples -/

def pA : Post := { id := "A", title := "first A", url := "uA", date := some "2025-03-01" }
def pB : Post := { id := "B", title := "post B", url := "uB", date := some "2025-02-20" }
def pA2 : Post := { id := "A", title := "second A", url := "uA2", date := some "2025-03-02" }
def pC : Post := { id := "C", title := "post C", url := "uC", date := some "2025-01-15" }

/-- Two posts sharing one date, in ascending seq_no order. -/
def cp1 : Post := { id := "100000", title := "older entry", url := "u1", date := some "2025-01-01" }
def cp2 : Post := { id := "200000", title := "newer entry", url := "u2", date := some "2025-01-01" }

def oldRec : SeenRecord := { title := "old title", url := "u1", date := none, ts := 0 }

/-- A post whose id is already recorded in the seen dict as oldRec. -/
def pDup : Post := { id := "100000", title := "fresh title", url := "u9", date := some "2025-01-02" }

/-! ## Lemmas about the tuple orders -/

theorem lexLe2_refl (a : Int × Int) : lexLe2 a a = true := by
  simp [lexLe2]

theorem lexLe2_total (a b : Int × Int) : lexLe2 a b = true ∨ lexLe2 b a = true := by
  simp only [lexLe2, Bool.or_eq_true, Bool.and_eq_true, decide_eq_true_eq]
  omega

theorem lexLe2_trans (a b c : Int × Int) (h1 : lexLe2 a b = true) (h2 : lexLe2 b c = true) :
    lexLe2 a c = true := by
  simp only [lexLe2, Bool.or_eq_true, Bool.and_eq_true, decide_eq_true_eq] at h1 h2 ⊢
  omega

theorem lexLe3_refl (a : Nat × Nat × Nat) : lexLe3 a a = true := by
  simp [lexLe3]

theorem lexLe3_total (a b : Nat × Nat × Nat) : lexLe3 a b = true ∨ lexLe3 b a = true := by
  simp only [lexLe3, Bool.or_eq_true, Bool.and_eq_true, decide_eq_true_eq]
  omega

theorem lexLe3_trans (a b c : Nat × Nat × Nat) (h1 : lexLe3 a b = true) (h2 : lexLe3 b c = true) :
    lexLe3 a c = true := by
  simp only [lexLe3, Bool.or_eq_true, Bool.and_eq_true, decide_eq_true_eq] at h1 h2 ⊢
  omega

theorem kalPostLe_total (a b : Post) : kalPostLe a b = true ∨ kalPostLe b a = true :=
  lexLe2_total _ _

theorem kalPostLe_trans (a b c : Post) (h1 : kalPostLe a b = true) (h2 : kalPostLe b c = true) :
    kalPostLe a c = true :=
  lexLe2_trans _ _ _ h1 h2

theorem agentPostLe_total (a b : Post) : agentPostLe a b = true ∨ agentPostLe b a = true :=
  lexLe3_total _ _

theorem agentPostLe_trans (a b c : Post) (h1 : agentPostLe a b = true)
    (h2 : agentPostLe b c = true) : agentPostLe a c = true :=
  lexLe3_trans _ _ _ h1 h2

/-! ## Lemmas about the stable descending sort -/

theorem mem_insertDescBy {α : Type} (le : α → α → Bool) (x z : α) (l : List α) :
    z ∈ insertDescBy le x l ↔ z = x ∨ z ∈ l := by
  induction l with
  | nil => simp [insertDescBy]
  | cons y ys ih =>
    cases h : le x y
    · simp only [insertDescBy, h, Bool.false_eq_true, if_false, List.mem_cons]
    · simp only [insertDescBy, h, if_true, List.mem_cons, ih]
      tauto

theorem pairwise_insertDescBy {α : Type} (le : α → α → Bool)
    (htot : ∀ a b, le a b = true ∨ le b a = true)
    (htrans : ∀ a b c, le a b = true → le b c = true → le a c = true)
    (x : α) {l : List α} (hl : l.Pairwise (fun a b => le b a = true)) :
    (insertDescBy le x l).Pairwise (fun a b => le b a = true) := by
  induction l with
  | nil => simp [insertDescBy]
  | cons y ys ih =>
    rcases List.pairwise_cons.mp hl with ⟨hy, hys⟩
    cases h : le x y
    · simp only [insertDescBy, h, Bool.false_eq_true, if_false]
      have hyx : le y x = true := (htot x y).resolve_left (by simp [h])
      refine List.pairwise_cons.mpr ⟨?_, List.pairwise_cons.mpr ⟨hy, hys⟩⟩
      intro z hz
      rcases List.mem_cons.mp hz with rfl | hz2
      · exact hyx
      · exact htrans z y x (hy z hz2) hyx
    · simp only [insertDescBy, h, if_true]
      refine List.pairwise_cons.mpr ⟨?_, ih hys⟩
      intro z hz
      rcases (mem_insertDescBy le x z ys).mp hz with rfl | hz2
      · exact h
      · exact hy z hz2

theorem filter_insertDescBy_neg {α : Type} (le : α → α → Bool) (p : α → Bool) (x : α)
    (hpx : p x = false) (l : List α) :
    (insertDescBy le x l).filter p = l.filter p := by
  induction l with
  | nil => simp [insertDescBy, List.filter_cons, hpx]
  | cons y ys ih =>
    cases h : le x y
    · simp only [insertDescBy, h, Bool.false_eq_true, if_false, List.filter_cons, hpx]
    · simp only [insertDescBy, h, if_true, List.filter_cons, ih]

theorem filter_insertDescBy_pos {α : Type} (le : α → α → Bool)
    (htrans : ∀ a b c, le a b = true → le b c = true → le a c = true)
    (p : α → Bool) (x : α) (hpx : p x = true)
    (hcomp : ∀ z, p z = true → le x z = true) :
    ∀ l : List α, l.Pairwise (fun a b => le b a = true) →
      (insertDescBy le x l).filter p = l.filter p ++ [x]
  | [], _ => by simp [insertDescBy, List.filter_cons, hpx]
  | y :: ys, hl => by
    rcases List.pairwise_cons.mp hl with ⟨hy, hys⟩
    cases h : le x y
    · have hnone : ∀ z ∈ y :: ys, p z = false := by
        intro z hz
        rcases List.mem_cons.mp hz with rfl | hz2
        · cases hpz : p z with
          | false => rfl
          | true => exact absurd (hcomp z hpz) (by simp [h])
        · cases hpz : p z with
          | false => rfl
          | true => exact absurd (htrans x z y (hcomp z hpz) (hy z hz2)) (by simp [h])
      have hnil : (y :: ys).filter p = [] :=
        List.filter_eq_nil_iff.mpr (fun a ha => by rw [hnone a ha]; simp)
      simp only [insertDescBy, h, Bool.false_eq_true, if_false, List.filter_cons, hpx,
        if_true, hnil]
      simp
    · have ih := filter_insertDescBy_pos le htrans p x hpx hcomp ys hys
      simp only [insertDescBy, h, if_true, List.filter_cons, ih]
      by_cases hpy : p y = true <;> simp [hpy]

theorem mem_foldl_insertDescBy {α : Type} (le : α → α → Bool) (z : α) :
    ∀ (l acc : List α),
      z ∈ l.foldl (fun a x => insertDescBy le x a) acc ↔ z ∈ acc ∨ z ∈ l
  | [], acc => by simp
  | x :: xs, acc => by
    rw [List.foldl_cons, mem_foldl_insertDescBy le z xs (insertDescBy le x acc),
      mem_insertDescBy]
    simp only [List.mem_cons]
    tauto

theorem mem_pySortDescBy {α : Type} (le : α → α → Bool) (z : α) (l : List α) :
    z ∈ pySortDescBy le l ↔ z ∈ l := by
  rw [pySortDescBy, mem_foldl_insertDescBy]
  simp

theorem pairwise_foldl_insertDescBy {α : Type} (le : α → α → Bool)
    (htot : ∀ a b, le a b = true ∨ le b a = true)
    (htrans : ∀ a b c, le a b = true → le b c = true → le a c = true) :
    ∀ (l acc : List α), acc.Pairwise (fun a b => le b a = true) →
      (l.foldl (fun a x => insertDescBy le x a) acc).Pairwise (fun a b => le b a = true)
  | [], _, hacc => hacc
  | x :: xs, acc, hacc => by
    rw [List.foldl_cons]
    exact pairwise_foldl_insertDescBy le htot htrans xs (insertDescBy le x acc)
      (pairwise_insertDescBy le htot htrans x hacc)

theorem pairwise_pySortDescBy {α : Type} (le : α → α → Bool)
    (htot : ∀ a b, le a b = true ∨ le b a = true)
    (htrans : ∀ a b c, le a b = true → le b c = true → le a c = true) (l : List α) :
    (pySortDescBy le l).Pairwise (fun a b => le b a = true) :=
  pairwise_foldl_insertDescBy le htot htrans l [] (List.Pairwise.nil)

theorem filter_foldl_insertDescBy {α : Type} (le : α → α → Bool)
    (htot : ∀ a b, le a b = true ∨ le b a = true)
    (htrans : ∀ a b c, le a b = true → le b c = true → le a c = true)
    (p : α → Bool) (hcomp : ∀ x z, p x = true → p z = true → le x z = true) :
    ∀ (l acc : List α), acc.Pairwise (fun a b => le b a = true) →
      (l.foldl (fun a x => insertDescBy le x a) acc).filter p = acc.filter p ++ l.filter p
  | [], acc, _ => by simp
  | x :: xs, acc, hacc => by
    have hacc2 := pairwise_insertDescBy le htot htrans x hacc
    have ih := filter_foldl_insertDescBy le htot htrans p hcomp xs (insertDescBy le x acc) hacc2
    rw [List.foldl_cons, ih]
    by_cases hpx : p x = true
    · rw [filter_insertDescBy_pos le htrans p x hpx (fun z hz => hcomp x z hpx hz) acc hacc]
      simp [List.filter_cons, hpx]
    · rw [filter_insertDescBy_neg le p x (Bool.eq_false_iff.mpr hpx) acc]
      simp [List.filter_cons, hpx]

/-- Stability of the modelled Python sort: for every key value, the elements
carrying that key come out in exactly their input order. -/
theorem filter_pySortDescBy {α : Type} (le : α → α → Bool)
    (htot : ∀ a b, le a b = true ∨ le b a = true)
    (htrans : ∀ a b c, le a b = true → le b c = true → le a c = true)
    (p : α → Bool) (hcomp : ∀ x z, p x = true → p z = true → le x z = true) (l : List α) :
    (pySortDescBy le l).filter p = l.filter p := by
  have := filter_foldl_insertDescBy le htot htrans p hcomp l [] (List.Pairwise.nil)
  simpa [pySortDescBy] using this

/-! ## Lemmas about the dict operations -/

theorem dictContains_iff {α : Type} (d : Dict α) (k : String) :
    dictContains d k = true ↔ ∃ e ∈ d, e.1 = k := by
  simp [dictContains, List.any_eq_true]

theorem dictContains_dictSet {α : Type} (d : Dict α) (k k2 : String) (v : α) :
    dictContains (dictSet d k v) k2 = true ↔ k2 = k ∨ dictContains d k2 = true := by
  by_cases hc : dictContains d k = true
  · rw [dictSet, if_pos hc]
    simp only [dictContains_iff, List.mem_map]
    constructor
    · rintro ⟨e, ⟨e0, he0, rfl⟩, hfst⟩
      by_cases h0 : e0.1 = k
      · simp only [h0, if_true] at hfst
        exact Or.inl hfst.symm
      · simp only [h0, if_false] at hfst
        exact Or.inr ⟨e0, he0, hfst⟩
    · rintro (heq | ⟨e, he, hfst⟩)
      · rcases (dictContains_iff d k).mp hc with ⟨e, he, hfst⟩
        exact ⟨(k, v), ⟨e, he, by simp [hfst]⟩, heq.symm⟩
      · by_cases h0 : e.1 = k
        · refine ⟨(k, v), ⟨e, he, by simp [h0]⟩, by rw [← hfst, h0]⟩
        · exact ⟨e, ⟨e, he, by simp [h0]⟩, hfst⟩
  · rw [dictSet, if_neg hc]
    simp only [dictContains_iff, List.mem_append, List.mem_singleton]
    constructor
    · rintro ⟨e, he | rfl, hfst⟩
      · exact Or.inr ⟨e, he, hfst⟩
      · exact Or.inl hfst.symm
    · rintro (heq | ⟨e, he, hfst⟩)
      · exact ⟨(k, v), Or.inr rfl, heq.symm⟩
      · exact ⟨e, Or.inl he, hfst⟩

theorem dictGet_map_update_ne {α : Type} (d : Dict α) (k k2 : String) (v : α) (hne : k2 ≠ k) :
    dictGet? (d.map (fun e => if e.1 = k then (k, v) else e)) k2 = dictGet? d k2 := by
  have hnk : ¬ k = k2 := fun h => hne h.symm
  induction d with
  | nil => rfl
  | cons e d2 ih =>
    have ih2 := ih
    simp only [dictGet?] at ih2
    by_cases h0 : e.1 = k
    · simp only [dictGet?, List.map_cons, if_pos h0]
      rw [List.find?_cons_of_neg _ (by simpa using hnk),
        List.find?_cons_of_neg _ (by simp [h0]; exact hnk)]
      exact ih2
    · simp only [dictGet?, List.map_cons, if_neg h0]
      by_cases h2 : e.1 = k2
      · rw [List.find?_cons_of_pos _ (by simpa using h2),
          List.find?_cons_of_pos _ (by simpa using h2)]
      · rw [List.find?_cons_of_neg _ (by simpa using h2),
          List.find?_cons_of_neg _ (by simpa using h2)]
        exact ih2

theorem dictGet_dictSet_ne {α : Type} (d : Dict α) (k k2 : String) (v : α) (hne : k2 ≠ k) :
    dictGet? (dictSet d k v) k2 = dictGet? d k2 := by
  by_cases hc : dictContains d k = true
  · rw [dictSet, if_pos hc]
    exact dictGet_map_update_ne d k k2 v hne
  · rw [dictSet, if_neg hc, dictGet?, dictGet?, List.find?_append]
    have hnk : ¬ k = k2 := fun h => hne h.symm
    have h1 : List.find? (fun e => decide (e.1 = k2)) [(k, v)] = none := by
      rw [List.find?_cons_of_neg _ (by simpa using hnk)]
      rfl
    rw [h1]
    cases List.find? (fun e => decide (e.1 = k2)) d <;> rfl

/-- Containment after folding dictSet over a post list (covers both registerAll
and uniq_map, which differ only in the stored value). -/
theorem dictContains_foldl_set {α : Type} (f : Post → α) (k : String) :
    ∀ (l : List Post) (d : Dict α),
      dictContains (l.foldl (fun d p => dictSet d p.id (f p)) d) k = true ↔
        dictContains d k = true ∨ ∃ p ∈ l, p.id = k
  | [], d => by simp
  | p :: ps, d => by
    rw [List.foldl_cons, dictContains_foldl_set f k ps (dictSet d p.id (f p))]
    rw [dictContains_dictSet]
    simp only [List.mem_cons]
    constructor
    · rintro ((rfl | hd) | ⟨q, hq, rfl⟩)
      · exact Or.inr ⟨p, Or.inl rfl, rfl⟩
      · exact Or.inl hd
      · exact Or.inr ⟨q, Or.inr hq, rfl⟩
    · rintro (hd | ⟨q, rfl | hq, rfl⟩)
      · exact Or.inl (Or.inr hd)
      · exact Or.inl (Or.inl rfl)
      · exact Or.inr ⟨q, hq, rfl⟩

theorem dictGet_foldl_set_ne {α : Type} (f : Post → α) (k : String) :
    ∀ (l : List Post) (d : Dict α), (∀ p ∈ l, p.id ≠ k) →
      dictGet? (l.foldl (fun d p => dictSet d p.id (f p)) d) k = dictGet? d k
  | [], d, _ => rfl
  | p :: ps, d, h => by
    rw [List.foldl_cons,
      dictGet_foldl_set_ne f k ps (dictSet d p.id (f p)) (fun q hq => h q (List.mem_cons_of_mem p hq)),
      dictGet_dictSet_ne d p.id k (f p) (fun he => h p (List.mem_cons_self p ps) he.symm)]

theorem dictContains_registerAll (seen : SeenDict) (ps : List Post) (now : Int) (k : String) :
    dictContains (registerAll seen ps now) k = true ↔
      dictContains seen k = true ∨ ∃ p ∈ ps, p.id = k :=
  dictContains_foldl_set (fun p => seenRecordOf p now) k ps seen

theorem dictGet_registerAll_ne (seen : SeenDict) (ps : List Post) (now : Int) (k : String)
    (h : ∀ p ∈ ps, p.id ≠ k) :
    dictGet? (registerAll seen ps now) k = dictGet? seen k :=
  dictGet_foldl_set_ne (fun p => seenRecordOf p now) k ps seen h

/-! ## Lemmas about deduplication -/

theorem dedupGo_sublist (u : List String) : ∀ l : List Post, List.Sublist (dedupGo u l) l := by
  intro l
  induction l generalizing u with
  | nil => simp [dedupGo]
  | cons p ps ih =>
    by_cases h : p.id ∈ u
    · simp only [dedupGo, h, if_true]
      exact (ih u).cons p
    · simp only [dedupGo, h, if_false]
      exact (ih (p.id :: u)).cons₂ p

theorem dedupGo_nodup_ids (u : List String) :
    ∀ l : List Post, ((dedupGo u l).map Post.id).Nodup ∧
      ∀ x ∈ (dedupGo u l).map Post.id, x ∉ u := by
  intro l
  induction l generalizing u with
  | nil => simp [dedupGo]
  | cons p ps ih =>
    by_cases h : p.id ∈ u
    · simp only [dedupGo, h, if_true]
      exact ih u
    · simp only [dedupGo, h, if_false, List.map_cons, List.nodup_cons, List.mem_cons]
      rcases ih (p.id :: u) with ⟨hnd, hnotin⟩
      refine ⟨⟨fun hmem => (hnotin p.id hmem) (List.mem_cons_self _ _), hnd⟩, ?_⟩
      rintro x (rfl | hx)
      · exact h
      · exact fun hxu => (hnotin x hx) (List.mem_cons_of_mem _ hxu)

theorem dedupGo_congr : ∀ (l : List Post) (u u2 : List String),
    (∀ x, x ∈ u ↔ x ∈ u2) → dedupGo u l = dedupGo u2 l
  | [], _, _, _ => rfl
  | p :: ps, u, u2, h => by
    by_cases hm : p.id ∈ u
    · simp only [dedupGo, hm, if_true, (h p.id).mp hm, dedupGo_congr ps u u2 h]
    · have hm2 : p.id ∉ u2 := fun hx => hm ((h p.id).mpr hx)
      simp only [dedupGo, hm, if_false, hm2]
      rw [dedupGo_congr ps (p.id :: u) (p.id :: u2)
        (fun x => by simp only [List.mem_cons]; rw [h x])]

theorem dictSet_keys {α : Type} (d : Dict α) (k : String) (v : α) :
    (dictSet d k v).map Prod.fst =
      if dictContains d k = true then d.map Prod.fst else d.map Prod.fst ++ [k] := by
  by_cases hc : dictContains d k = true
  · rw [dictSet, if_pos hc, if_pos hc, List.map_map]
    refine List.map_congr_left ?_
    intro e _
    by_cases h0 : e.1 = k
    · simp [h0]
    · simp [h0]
  · rw [dictSet, if_neg hc, if_neg hc]
    simp

theorem mem_keys_iff_dictContains {α : Type} (d : Dict α) (k : String) :
    k ∈ d.map Prod.fst ↔ dictContains d k = true := by
  rw [dictContains_iff, List.mem_map]

/-- The keys accumulated by the Python dict comprehension are exactly the ids
kept by the first-seen deduplication of the agent watcher. -/
theorem uniq_map_keys_aux : ∀ (l : List Post) (d : Dict Post),
    (l.foldl (fun d p => dictSet d p.id p) d).map Prod.fst =
      d.map Prod.fst ++ (dedupGo (d.map Prod.fst) l).map Post.id
  | [], d => by simp [dedupGo]
  | p :: ps, d => by
    rw [List.foldl_cons, uniq_map_keys_aux ps (dictSet d p.id p), dictSet_keys]
    by_cases hc : dictContains d p.id = true
    · have hmem : p.id ∈ d.map Prod.fst := (mem_keys_iff_dictContains d p.id).mpr hc
      rw [if_pos hc]
      simp only [dedupGo, hmem, if_true]
    · have hmem : p.id ∉ d.map Prod.fst := fun hx => hc ((mem_keys_iff_dictContains d p.id).mp hx)
      rw [if_neg hc]
      simp only [dedupGo, hmem, if_false, List.map_cons]
      rw [dedupGo_congr ps (d.map Prod.fst ++ [p.id]) (p.id :: d.map Prod.fst)
        (fun x => by simp only [List.mem_append, List.mem_singleton, List.mem_cons]; tauto)]
      simp

theorem uniq_map_keys (l : List Post) :
    (uniq_map l).map Prod.fst = (dedup_by_id l).map Post.id := by
  have := uniq_map_keys_aux l []
  simpa [uniq_map, dedup_by_id] using this

/-- Every entry of the dict built by uniq_map stores a post whose id is its key. -/
theorem uniq_map_entry_id : ∀ (l : List Post) (d : Dict Post),
    (∀ e ∈ d, e.2.id = e.1) → ∀ e ∈ l.foldl (fun d p => dictSet d p.id p) d, e.2.id = e.1
  | [], _, hd => hd
  | p :: ps, d, hd => by
    rw [List.foldl_cons]
    refine uniq_map_entry_id ps (dictSet d p.id p) ?_
    intro e he
    by_cases hc : dictContains d p.id = true
    · rw [dictSet, if_pos hc] at he
      rcases List.mem_map.mp he with ⟨e0, he0, rfl⟩
      by_cases h0 : e0.1 = p.id
      · simp [h0]
      · simpa [h0] using hd e0 he0
    · rw [dictSet, if_neg hc] at he
      rcases List.mem_append.mp he with he0 | he1
      · exact hd e he0
      · rcases List.mem_singleton.mp he1 with rfl
        rfl

/-- Values of the dict built by uniq_map come from the input list. -/
theorem uniq_map_values_sub : ∀ (l : List Post) (d : Dict Post),
    ∀ q ∈ dictValues (l.foldl (fun d p => dictSet d p.id p) d), q ∈ dictValues d ∨ q ∈ l
  | [], _, q, hq => Or.inl hq
  | p :: ps, d, q, hq => by
    rcases uniq_map_values_sub ps (dictSet d p.id p) q hq with hq2 | hq2
    · rcases List.mem_map.mp hq2 with ⟨e, he, rfl⟩
      by_cases hc : dictContains d p.id = true
      · rw [dictSet, if_pos hc] at he
        rcases List.mem_map.mp he with ⟨e0, he0, rfl⟩
        by_cases h0 : e0.1 = p.id
        · simp only [h0, if_true]
          exact Or.inr (List.mem_cons_self _ _)
        · simp only [h0, if_false]
          exact Or.inl (List.mem_map.mpr ⟨e0, he0, rfl⟩)
      · rw [dictSet, if_neg hc] at he
        rcases List.mem_append.mp he with he0 | he1
        · exact Or.inl (List.mem_map.mpr ⟨e, he0, rfl⟩)
        · rcases List.mem_singleton.mp he1 with rfl
          exact Or.inr (List.mem_cons_self _ _)
    · exact Or.inr (List.mem_cons_of_mem _ hq2)

/-- Every post of the input is represented in kalSortedUniq by a post with the
same id. -/
theorem kalSortedUniq_id_cover (l : List Post) (p : Post) (hp : p ∈ l) :
    ∃ q ∈ kalSortedUniq l, q.id = p.id := by
  have hc : dictContains (uniq_map l) p.id = true := by
    rw [uniq_map, dictContains_foldl_set]
    exact Or.inr ⟨p, hp, rfl⟩
  rcases (dictContains_iff _ _).mp hc with ⟨e, he, hfst⟩
  have hid : e.2.id = e.1 := uniq_map_entry_id l [] (by simp) e he
  refine ⟨e.2, ?_, by rw [hid, hfst]⟩
  rw [kalSortedUniq, kalSortDesc, mem_pySortDescBy]
  exact List.mem_map.mpr ⟨e, he, rfl⟩

/-- Every post of kalSortedUniq comes from the input list. -/
theorem kalSortedUniq_sub (l : List Post) (q : Post) (hq : q ∈ kalSortedUniq l) : q ∈ l := by
  rw [kalSortedUniq, kalSortDesc, mem_pySortDescBy] at hq
  rcases uniq_map_values_sub l [] q hq with h0 | h0
  · simp [dictValues] at h0
  · exact h0

/-! ## Lemmas about the two runs -/

/-- Unfolding equation for kalmateRun. -/
theorem kalmateRun_eq (fr flag : Bool) (n : Int) (seen : SeenDict) (posts : List Post)
    (now : Int) (ok : Bool) :
    kalmateRun fr flag n seen posts now ok =
      if (fr && !flag) && !(kalSortedUniq posts).isEmpty then
        { seen := registerAll seen (kalSortedUniq posts) now, flag := true,
          sent := some ("baseline", (kalSortedUniq posts).take (max 1 n).toNat),
          fs := save_seen (registerAll seen (kalSortedUniq posts) now) ++
            [FsOp.writeFlag KAL_BASELINE_FLAG] }
      else if !((kalSortedUniq posts).filter (fun p => !dictContains seen p.id)).isEmpty then
        { seen := registerAll seen
            (kalSortDesc ((kalSortedUniq posts).filter (fun p => !dictContains seen p.id))) now,
          flag := flag,
          sent := some ("new",
            kalSortDesc ((kalSortedUniq posts).filter (fun p => !dictContains seen p.id))),
          fs := save_seen (registerAll seen
            (kalSortDesc ((kalSortedUniq posts).filter (fun p => !dictContains seen p.id))) now) }
      else
        { seen := seen, flag := flag, sent := none, fs := [] } := rfl

/-- Unfolding equation for agentRun. -/
theorem agentRun_eq (fc flag : Bool) (n : Int) (seen : SeenDict) (posts : List Post)
    (now : Int) (ok : Bool) :
    agentRun fc flag n seen posts now ok =
      if posts.isEmpty then
        { seen := seen, flag := flag, sent := none, fs := [] }
      else if !flag || fc then
        { seen := registerAll seen (agentSortDesc posts) now, flag := true,
          sent := some ("snapshot", pySlice n (agentSortDesc posts)),
          fs := save_seen (registerAll seen (agentSortDesc posts) now) ++
            [FsOp.writeFlag AGENT_BASELINE_FLAG] }
      else if !((agentSortDesc posts).filter (fun p => !dictContains seen p.id)).isEmpty then
        { seen := registerAll seen
            ((agentSortDesc posts).filter (fun p => !dictContains seen p.id)) now,
          flag := flag,
          sent := some ("new", (agentSortDesc posts).filter (fun p => !dictContains seen p.id)),
          fs := save_seen (registerAll seen
            ((agentSortDesc posts).filter (fun p => !dictContains seen p.id)) now) }
      else
        { seen := seen, flag := flag, sent := none, fs := [] } := rfl

theorem kalmateRun_flag_mono (fr : Bool) (n : Int) (seen : SeenDict) (posts : List Post)
    (now : Int) (ok : Bool) :
    (kalmateRun fr true n seen posts now ok).flag = true := by
  rw [kalmateRun_eq]
  split_ifs <;> rfl

theorem agentRun_flag_mono (n : Int) (seen : SeenDict) (posts : List Post)
    (now : Int) (ok : Bool) :
    (agentRun false true n seen posts now ok).flag = true := by
  rw [agentRun_eq]
  split_ifs <;> rfl

/-- After any KALMATE run, every deduplicated observed post id is in the seen dict. -/
theorem kalmateRun_covers (fr flag : Bool) (n : Int) (seen : SeenDict) (posts : List Post)
    (now : Int) (ok : Bool) (p : Post) (hp : p ∈ kalSortedUniq posts) :
    dictContains (kalmateRun fr flag n seen posts now ok).seen p.id = true := by
  rw [kalmateRun_eq]
  split_ifs with h1 h2
  · exact (dictContains_registerAll seen (kalSortedUniq posts) now p.id).mpr
      (Or.inr ⟨p, hp, rfl⟩)
  · by_cases hcp : dictContains seen p.id = true
    · exact (dictContains_registerAll _ _ _ _).mpr (Or.inl hcp)
    · have hcf : dictContains seen p.id = false := by
        revert hcp
        cases dictContains seen p.id <;> simp
      have hnotc : (!dictContains seen p.id) = true := by rw [hcf]; rfl
      have hpnew : p ∈ (kalSortedUniq posts).filter (fun q => !dictContains seen q.id) :=
        List.mem_filter.mpr ⟨hp, hnotc⟩
      have hn : p ∈ kalSortDesc ((kalSortedUniq posts).filter
          (fun q => !dictContains seen q.id)) :=
        (mem_pySortDescBy kalPostLe p _).mpr hpnew
      exact (dictContains_registerAll _ _ _ _).mpr (Or.inr ⟨p, hn, rfl⟩)
  · have hempty : ((kalSortedUniq posts).filter (fun q => !dictContains seen q.id)).isEmpty
        = true := by
      revert h2
      cases ((kalSortedUniq posts).filter (fun q => !dictContains seen q.id)).isEmpty <;> simp
    have hnil := List.isEmpty_iff.mp hempty
    have hnp := List.filter_eq_nil_iff.mp hnil p hp
    revert hnp
    cases dictContains seen p.id <;> simp

/-- After any agent run, every observed post id is in the seen dict, provided
the run saw at least that post. -/
theorem agentRun_covers (fc flag : Bool) (n : Int) (seen : SeenDict) (posts : List Post)
    (now : Int) (ok : Bool) (p : Post) (hp : p ∈ posts) :
    dictContains (agentRun fc flag n seen posts now ok).seen p.id = true := by
  have hps : p ∈ agentSortDesc posts := (mem_pySortDescBy agentPostLe p posts).mpr hp
  rw [agentRun_eq]
  split_ifs with h0 h1 h2
  · exact absurd hp (by simp [List.isEmpty_iff.mp h0])
  · exact (dictContains_registerAll seen (agentSortDesc posts) now p.id).mpr
      (Or.inr ⟨p, hps, rfl⟩)
  · by_cases hcp : dictContains seen p.id = true
    · exact (dictContains_registerAll _ _ _ _).mpr (Or.inl hcp)
    · have hcf : dictContains seen p.id = false := by
        revert hcp
        cases dictContains seen p.id <;> simp
      have hnotc : (!dictContains seen p.id) = true := by rw [hcf]; rfl
      have hpnew : p ∈ (agentSortDesc posts).filter (fun q => !dictContains seen q.id) :=
        List.mem_filter.mpr ⟨hps, hnotc⟩
      exact (dictContains_registerAll _ _ _ _).mpr (Or.inr ⟨p, hpnew, rfl⟩)
  · have hempty : ((agentSortDesc posts).filter (fun q => !dictContains seen q.id)).isEmpty
        = true := by
      revert h2
      cases ((agentSortDesc posts).filter (fun q => !dictContains seen q.id)).isEmpty <;> simp
    have hnil := List.isEmpty_iff.mp hempty
    have hnp := List.filter_eq_nil_iff.mp hnil p hps
    revert hnp
    cases dictContains seen p.id <;> simp

/-- A second KALMATE run on the same observed posts is a no-op. -/
theorem kalmateRun_second (fr flag : Bool) (n : Int) (seen : SeenDict) (posts : List Post)
    (now now2 : Int) (ok ok2 : Bool) :
    kalmateRun fr (kalmateRun fr flag n seen posts now ok).flag n
        (kalmateRun fr flag n seen posts now ok).seen posts now2 ok2 =
      { seen := (kalmateRun fr flag n seen posts now ok).seen,
        flag := (kalmateRun fr flag n seen posts now ok).flag, sent := none, fs := [] } := by
  have hcov := kalmateRun_covers fr flag n seen posts now ok
  have hguard : ((fr && !(kalmateRun fr flag n seen posts now ok).flag) &&
      !(kalSortedUniq posts).isEmpty) = false := by
    by_cases hb : ((fr && !flag) && !(kalSortedUniq posts).isEmpty) = true
    · have hflag : (kalmateRun fr flag n seen posts now ok).flag = true := by
        rw [kalmateRun_eq, if_pos hb]
      rw [hflag]
      simp
    · have hflag : (kalmateRun fr flag n seen posts now ok).flag = flag := by
        rw [kalmateRun_eq, if_neg hb]
        split_ifs <;> rfl
      rw [hflag]
      revert hb
      cases fr <;> cases flag <;> cases (kalSortedUniq posts).isEmpty <;> simp
  have hfil : (kalSortedUniq posts).filter
      (fun p => !dictContains (kalmateRun fr flag n seen posts now ok).seen p.id) = [] :=
    List.filter_eq_nil_iff.mpr (fun p hp => by rw [hcov p hp]; simp)
  rw [kalmateRun_eq fr (kalmateRun fr flag n seen posts now ok).flag n
      (kalmateRun fr flag n seen posts now ok).seen posts now2 ok2, if_neg (by simp [hguard]),
    if_neg (by simp [hfil])]

/-- A second agent run (without the force flag) on the same collected posts is
a no-op. -/
theorem agentRun_second (flag : Bool) (n : Int) (seen : SeenDict) (posts : List Post)
    (now now2 : Int) (ok ok2 : Bool) :
    agentRun false (agentRun false flag n seen posts now ok).flag n
        (agentRun false flag n seen posts now ok).seen posts now2 ok2 =
      { seen := (agentRun false flag n seen posts now ok).seen,
        flag := (agentRun false flag n seen posts now ok).flag, sent := none, fs := [] } := by
  by_cases h0 : posts.isEmpty = true
  · have h0r : agentRun false flag n seen posts now ok =
        { seen := seen, flag := flag, sent := none, fs := [] } := by
      rw [agentRun_eq, if_pos h0]
    rw [h0r, agentRun_eq, if_pos h0]
  · have hcov := agentRun_covers false flag n seen posts now ok
    have hguard : (!(agentRun false flag n seen posts now ok).flag || false) = false := by
      by_cases hb : flag = true
      · have hflag : (agentRun false flag n seen posts now ok).flag = true := by
          rw [hb]
          exact agentRun_flag_mono n seen posts now ok
        rw [hflag]
        rfl
      · have hb2 : flag = false := by revert hb; cases flag <;> simp
        have hflag : (agentRun false flag n seen posts now ok).flag = true := by
          rw [agentRun_eq, if_neg (by simp [h0]), hb2]
          rw [if_pos (by rfl)]
      -- with flag false the first run takes the snapshot branch, so the flag is set
        rw [hflag]
        rfl
    have hfil : (agentSortDesc posts).filter
        (fun p => !dictContains (agentRun false flag n seen posts now ok).seen p.id) = [] :=
      List.filter_eq_nil_iff.mpr (fun p hp => by
        rw [hcov p ((mem_pySortDescBy agentPostLe p posts).mp hp)]
        simp)
    rw [agentRun_eq false (agentRun false flag n seen posts now ok).flag n
        (agentRun false flag n seen posts now ok).seen posts now2 ok2, if_neg (by simp [h0]),
      if_neg (by simp [hguard]), if_neg (by simp [hfil])]

/-! ## Lemmas about the multi-run flag traces -/

theorem kalmateFlags_chain (n : Int) :
    ∀ (ins : List RunIn) (seen : SeenDict) (flag : Bool),
      List.Chain' (fun a b => a = true → b = true) (flag :: kalmateFlags n seen flag ins)
  | [], _, _ => by simp [kalmateFlags]
  | i :: rest, seen, flag => by
    rw [kalmateFlags]
    refine List.chain'_cons.mpr ⟨?_, kalmateFlags_chain n rest _ _⟩
    intro hflag
    rw [hflag]
    exact kalmateRun_flag_mono i.firstRunNotify n seen i.posts i.now i.deliveryOk

theorem agentFlags_chain (n : Int) :
    ∀ (ins : List RunIn) (seen : SeenDict) (flag : Bool),
      List.Chain' (fun a b => a = true → b = true) (flag :: agentFlags n seen flag ins)
  | [], _, _ => by simp [agentFlags]
  | i :: rest, seen, flag => by
    rw [agentFlags]
    refine List.chain'_cons.mpr ⟨?_, agentFlags_chain n rest _ _⟩
    intro hflag
    rw [hflag]
    exact agentRun_flag_mono n seen i.posts i.now i.deliveryOk

theorem countRises_zero_of_true :
    ∀ l : List Bool, List.Chain' (fun a b => a = true → b = true) (true :: l) →
      countRises (true :: l) = 0
  | [], _ => rfl
  | b :: t, h => by
    rcases List.chain'_cons.mp h with ⟨hab, htail⟩
    have hb : b = true := hab rfl
    subst hb
    have := countRises_zero_of_true t htail
    simp only [countRises] at this ⊢
    simpa using this

theorem countRises_le_one :
    ∀ l : List Bool, List.Chain' (fun a b => a = true → b = true) l → countRises l ≤ 1
  | [], _ => by simp [countRises]
  | [a], _ => by cases a <;> simp [countRises]
  | a :: b :: t, h => by
    rcases List.chain'_cons.mp h with ⟨hab, htail⟩
    have ih := countRises_le_one (b :: t) htail
    cases ha : a with
    | true =>
      rw [ha] at h
      rw [countRises_zero_of_true (b :: t) h]
      omega
    | false =>
      cases hb : b with
      | true =>
        rw [hb] at htail
        have h0 := countRises_zero_of_true t htail
        simp [countRises, h0]
      | false =>
        rw [hb] at ih
        simpa [countRises] using ih

/-! ## Small facts about the sort keys -/

theorem neg_one_le_date_to_int (d : Option String) : -1 ≤ date_to_int d := by
  cases d with
  | none => simp [date_to_int]
  | some s =>
    rw [date_to_int]
    split_ifs with h0
    · omega
    · split
      · split
        · omega
        · omega
      · omega

theorem kalPostLe_date (a b : Post) (h : kalPostLe b a = true) :
    date_to_int b.date ≤ date_to_int a.date := by
  simp only [kalPostLe, lexLe2, sort_key_post, Bool.or_eq_true, Bool.and_eq_true,
    decide_eq_true_eq] at h
  omega

theorem lexLe3_zero (k : Nat × Nat × Nat) (h : lexLe3 k (0, 0, 0) = true) : k = (0, 0, 0) := by
  obtain ⟨k1, k2, k3⟩ := k
  simp only [lexLe3, Bool.or_eq_true, Bool.and_eq_true, decide_eq_true_eq] at h
  simp only [Prod.mk.injEq]
  omega

/-! ## Claim theorems -/

/-- C1: change detection is idempotent. A steady-state run (baseline not
pending) whose extracted posts all already belong to the seen-set sends nothing
and changes no state, for both watchers; moreover running either detector twice
in sequence against an unchanged extracted listing always produces an empty
new-post set on the second run: it sends nothing and leaves seen-set and marker
exactly as the first run left them. -/
theorem c1_steady_idempotent (fr flagK flagA : Bool) (nK nA : Int)
    (seenK seenA : SeenDict) (postsK postsA : List Post)
    (nowK nowK2 nowA nowA2 : Int) (okK okK2 okA okA2 : Bool) :
    ((fr && !flagK) = false → (∀ p ∈ postsK, dictContains seenK p.id = true) →
      kalmateRun fr flagK nK seenK postsK nowK okK =
        { seen := seenK, flag := flagK, sent := none, fs := [] }) ∧
    (flagA = true → (∀ p ∈ postsA, dictContains seenA p.id = true) →
      agentRun false flagA nA seenA postsA nowA okA =
        { seen := seenA, flag := flagA, sent := none, fs := [] }) ∧
    (kalmateRun fr (kalmateRun fr flagK nK seenK postsK nowK okK).flag nK
        (kalmateRun fr flagK nK seenK postsK nowK okK).seen postsK nowK2 okK2 =
      { seen := (kalmateRun fr flagK nK seenK postsK nowK okK).seen,
        flag := (kalmateRun fr flagK nK seenK postsK nowK okK).flag,
        sent := none, fs := [] }) ∧
    (agentRun false (agentRun false flagA nA seenA postsA nowA okA).flag nA
        (agentRun false flagA nA seenA postsA nowA okA).seen postsA nowA2 okA2 =
      { seen := (agentRun false flagA nA seenA postsA nowA okA).seen,
        flag := (agentRun false flagA nA seenA postsA nowA okA).flag,
        sent := none, fs := [] }) := by
  refine ⟨?_, ?_, kalmateRun_second fr flagK nK seenK postsK nowK nowK2 okK okK2,
    agentRun_second flagA nA seenA postsA nowA nowA2 okA okA2⟩
  · intro h1 h2
    have hfil : (kalSortedUniq postsK).filter (fun p => !dictContains seenK p.id) = [] :=
      List.filter_eq_nil_iff.mpr (fun p hp => by
        rw [h2 p (kalSortedUniq_sub postsK p hp)]
        simp)
    rw [kalmateRun_eq, if_neg (by simp [h1]), if_neg (by simp [hfil])]
  · intro hA h2
    subst hA
    by_cases h0 : postsA.isEmpty = true
    · rw [agentRun_eq, if_pos h0]
    · have hfil : (agentSortDesc postsA).filter (fun p => !dictContains seenA p.id) = [] :=
        List.filter_eq_nil_iff.mpr (fun p hp => by
          rw [h2 p ((mem_pySortDescBy agentPostLe p postsA).mp hp)]
          simp)
      rw [agentRun_eq, if_neg h0, if_neg (by simp), if_neg (by simp [hfil])]

/-- C1 witness: a concrete steady-state run over an already seen listing is a
no-op for both watchers. -/
theorem c1_witness :
    kalmateRun true true 10 [("A", seenRecordOf pA 0)] [pA] 7 true =
      { seen := [("A", seenRecordOf pA 0)], flag := true, sent := none, fs := [] } ∧
    agentRun false true 10 [("A", seenRecordOf pA 0)] [pA] 7 true =
      { seen := [("A", seenRecordOf pA 0)], flag := true, sent := none, fs := [] } := by
  have h := c1_steady_idempotent true true true 10 10 [("A", seenRecordOf pA 0)]
    [("A", seenRecordOf pA 0)] [pA] [pA] 7 8 7 8 true true true true
  exact ⟨h.1 (by decide) (by decide), h.2.1 rfl (by decide)⟩

/-- C2: on a baseline (snapshot) run with at least one extracted post, the
notification lists exactly the top N posts of the deduplicated newest-first
list (N at least 1 for the KALMATE watcher, which clamps the configured value
to a minimum of 1; nonnegative N for the agent watcher), every observed post id
is written into the persisted seen-set, and a following steady run over the
same listing reports nothing new. -/
theorem c2_baseline_topn_registers_all (nK nA : Int) (hK : 1 ≤ nK) (hA : 0 ≤ nA)
    (seenK seenA : SeenDict) (postsK postsA : List Post) (nowK nowA now2 now3 : Int)
    (okK okA ok2 ok3 : Bool)
    (hne : (kalSortedUniq postsK).isEmpty = false) (hneA : postsA.isEmpty = false) :
    (kalmateRun true false nK seenK postsK nowK okK).sent =
      some ("baseline", (kalSortedUniq postsK).take nK.toNat) ∧
    (∀ p ∈ postsK,
      dictContains (kalmateRun true false nK seenK postsK nowK okK).seen p.id = true) ∧
    (kalmateRun true (kalmateRun true false nK seenK postsK nowK okK).flag nK
        (kalmateRun true false nK seenK postsK nowK okK).seen postsK now2 ok2).sent = none ∧
    (agentRun false false nA seenA postsA nowA okA).sent =
      some ("snapshot", (agentSortDesc postsA).take nA.toNat) ∧
    (∀ p ∈ postsA,
      dictContains (agentRun false false nA seenA postsA nowA okA).seen p.id = true) ∧
    (agentRun false (agentRun false false nA seenA postsA nowA okA).flag nA
        (agentRun false false nA seenA postsA nowA okA).seen postsA now3 ok3).sent = none := by
  refine ⟨?_, ?_, ?_, ?_, ?_, ?_⟩
  · rw [kalmateRun_eq, if_pos (by simp [hne])]
    rw [max_eq_right hK]
  · intro p hp
    rcases kalSortedUniq_id_cover postsK p hp with ⟨q, hq, hqid⟩
    have := kalmateRun_covers true false nK seenK postsK nowK okK q hq
    rw [← hqid]
    exact this
  · rw [kalmateRun_second]
  · rw [agentRun_eq, if_neg (by simp [hneA]), if_pos (by simp)]
    have hslice : pySlice nA (agentSortDesc postsA) = (agentSortDesc postsA).take nA.toNat := by
      rw [pySlice, if_pos hA]
    rw [hslice]
  · intro p hp
    exact agentRun_covers false false nA seenA postsA nowA okA p hp
  · rw [agentRun_second]

/-- C2 witness: a concrete baseline run shows exactly the top posts while
registering everything. -/
theorem c2_witness :
    (kalmateRun true false 1 [] [pB, pA] 0 true).sent =
      some ("baseline", (kalSortedUniq [pB, pA]).take (1 : Int).toNat) ∧
    (agentRun false false 1 [] [pB, pA] 0 true).sent =
      some ("snapshot", (agentSortDesc [pB, pA]).take (1 : Int).toNat) := by
  have h := c2_baseline_topn_registers_all 1 1 (by decide) (by decide) [] [] [pB, pA] [pB, pA]
    0 0 1 1 true true true true (by decide) (by decide)
  exact ⟨h.1, h.2.2.2.1⟩

/-- C3: across repeated runs without the force flag, the baseline marker rises
from absent to present at most once; a run has the same outcome whether the
notification delivery succeeds or fails, and whenever a baseline (snapshot)
notification is attempted, the marker is written within that same run. -/
theorem c3_baseline_marker_once (fr fc flag : Bool) (n : Int) (seen : SeenDict)
    (posts : List Post) (now : Int) (ins : List RunIn) :
    kalmateRun fr flag n seen posts now true = kalmateRun fr flag n seen posts now false ∧
    agentRun fc flag n seen posts now true = agentRun fc flag n seen posts now false ∧
    (∀ ok sentPosts,
      (kalmateRun fr flag n seen posts now ok).sent = some ("baseline", sentPosts) →
      (kalmateRun fr flag n seen posts now ok).flag = true ∧
        FsOp.writeFlag KAL_BASELINE_FLAG ∈ (kalmateRun fr flag n seen posts now ok).fs) ∧
    (∀ ok sentPosts,
      (agentRun fc flag n seen posts now ok).sent = some ("snapshot", sentPosts) →
      (agentRun fc flag n seen posts now ok).flag = true ∧
        FsOp.writeFlag AGENT_BASELINE_FLAG ∈ (agentRun fc flag n seen posts now ok).fs) ∧
    countRises (flag :: kalmateFlags n seen flag ins) ≤ 1 ∧
    countRises (flag :: agentFlags n seen flag ins) ≤ 1 := by
  refine ⟨rfl, rfl, ?_, ?_, countRises_le_one _ (kalmateFlags_chain n ins seen flag),
    countRises_le_one _ (agentFlags_chain n ins seen flag)⟩
  · intro ok sentPosts hsent
    rw [kalmateRun_eq] at hsent ⊢
    split_ifs at hsent ⊢ with h1 h2
    · refine ⟨rfl, ?_⟩
      simp [save_seen]
    · exfalso
      have h := congrArg (fun o => Option.map Prod.fst o) hsent
      simp at h
  · intro ok sentPosts hsent
    rw [agentRun_eq] at hsent ⊢
    split_ifs at hsent ⊢ with h0 h1 h2
    · refine ⟨rfl, ?_⟩
      simp [save_seen]
    · exfalso
      have h := congrArg (fun o => Option.map Prod.fst o) hsent
      simp at h

/-- C3 witness: a concrete baseline attempt writes the marker, whether delivery
succeeds or not. -/
theorem c3_witness :
    (kalmateRun true false 10 [] [pA] 0 false).flag = true ∧
    FsOp.writeFlag KAL_BASELINE_FLAG ∈ (kalmateRun true false 10 [] [pA] 0 false).fs ∧
    (agentRun false false 10 [] [pA] 0 false).flag = true ∧
    FsOp.writeFlag AGENT_BASELINE_FLAG ∈ (agentRun false false 10 [] [pA] 0 false).fs := by
  have h := c3_baseline_marker_once true false false 10 [] [pA] 0 []
  have hk := h.2.2.1 false ((kalSortedUniq [pA]).take (max 1 (10 : Int)).toNat) (by decide)
  have ha := h.2.2.2.1 false (pySlice 10 (agentSortDesc [pA])) (by decide)
  exact ⟨hk.1, hk.2, ha.1, ha.2⟩

/-- C4: deduplication collapses candidates to unique ids in first-seen order:
the agent dedup keeps exactly the first occurrence of every id as a sublist of
the input with no duplicate ids, the KALMATE dict comprehension produces its
keys in the same first-seen order, and for candidates with ids A, B, A, C the
deduplicated ids are A, B, C in both watchers. -/
theorem c4_dedup_first_seen (l : List Post) :
    List.Sublist (dedup_by_id l) l ∧
    ((dedup_by_id l).map Post.id).Nodup ∧
    (uniq_map l).map Prod.fst = (dedup_by_id l).map Post.id ∧
    dedup_by_id [pA, pB, pA2, pC] = [pA, pB, pC] ∧
    (uniq_map [pA, pB, pA2, pC]).map Prod.fst = ["A", "B", "C"] :=
  ⟨dedupGo_sublist [] l, (dedupGo_nodup_ids [] l).1, uniq_map_keys l, by decide, by decide⟩

/-- C4 witness: the dedup properties hold at the concrete A, B, A, C input. -/
theorem c4_witness :
    List.Sublist (dedup_by_id [pA, pB, pA2, pC]) [pA, pB, pA2, pC] ∧
    ((dedup_by_id [pA, pB, pA2, pC]).map Post.id).Nodup := by
  have h := c4_dedup_first_seen [pA, pB, pA2, pC]
  exact ⟨h.1, h.2.1⟩

/-- C5 counterexample: the KALMATE extractor accepts the out-of-range date
string 2025-13-40 and returns it as an extracted date instead of treating it as
absent, refuting the claim that every extracted date candidate has its month
checked against 1 to 12 and its day against 1 to 31 before acceptance. -/
theorem c5_counterexample :
    first_date_in_text "2025-13-40" = some "2025-13-40" ∧
    date_to_int (some "2025-13-40") = 20251340 := by
  constructor <;> decide

/-- C5 amended: only the agent watcher validates month and day ranges before
acceptance: its extractor rejects 2025-13-40 and normalizes 2025-02-28, and
every date it ever returns has month 1 to 12 and day 1 to 31; the KALMATE
watcher formats whatever its pattern captured without any range validation, so
2025-13-40 comes back verbatim there. -/
theorem c5_amended :
    to_ymd "2025-13-40" = none ∧
    to_ymd "2025-02-28" = some "2025-02-28" ∧
    first_date_in_text "2025-02-28" = some "2025-02-28" ∧
    first_date_in_text "2025-13-40" = some "2025-13-40" ∧
    ∀ s : String, to_ymd s = none ∨
      ∃ y mo d, to_ymd s = some (fmtYmd y mo d) ∧
        1 ≤ mo ∧ mo ≤ 12 ∧ 1 ≤ d ∧ d ≤ 31 := by
  refine ⟨by decide, by decide, by decide, by decide, ?_⟩
  intro s
  by_cases h0 : s = ""
  · left
    simp [to_ymd, h0]
  · cases hsearch : searchToYmd s.data with
    | none =>
      left
      simp [to_ymd, h0, hsearch]
    | some t =>
      obtain ⟨y, mo, d⟩ := t
      by_cases hv : 1 ≤ mo ∧ mo ≤ 12 ∧ 1 ≤ d ∧ d ≤ 31
      · right
        refine ⟨y, mo, d, ?_, hv.1, hv.2.1, hv.2.2.1, hv.2.2.2⟩
        simp [to_ymd, h0, hsearch, hv]
      · left
        simp [to_ymd, h0, hsearch, hv]

/-- C6: the extractor dispatch is a strict priority chain that stops at the
first strategy yielding at least one candidate: a nonempty higher strategy
fully determines the output independently of the lower ones, when both
structured strategies are empty the output is exactly the regex strategy
output, and the dispatch coincides with the first-nonempty chain of
responsibility over the three strategies. -/
theorem c6_strategy_priority (s1 s2 s3 s2b s3b : List Post) :
    (s1 = [] → s2 = [] → s3 ≠ [] →
      parse_notice_posts_from_html s1 s2 s3 = kalSortedUniq s3) ∧
    (s1 ≠ [] → parse_notice_posts_from_html s1 s2 s3 = kalSortedUniq s1 ∧
      parse_notice_posts_from_html s1 s2 s3 = parse_notice_posts_from_html s1 s2b s3b) ∧
    (s1 = [] → s2 ≠ [] → parse_notice_posts_from_html s1 s2 s3 = kalSortedUniq s2 ∧
      parse_notice_posts_from_html s1 s2 s3 = parse_notice_posts_from_html s1 s2 s3b) ∧
    parse_notice_posts_from_html s1 s2 s3 =
      kalSortedUniq (firstNonemptyStrategy [s1, s2, s3]) := by
  refine ⟨?_, ?_, ?_, ?_⟩
  · rintro rfl rfl h3
    have h3e : s3.isEmpty = false := by revert h3; cases s3 <;> simp
    simp [parse_notice_posts_from_html, h3e]
  · intro h1
    have h1e : s1.isEmpty = false := by revert h1; cases s1 <;> simp
    constructor <;> simp [parse_notice_posts_from_html, h1e]
  · rintro rfl h2
    have h2e : s2.isEmpty = false := by revert h2; cases s2 <;> simp
    constructor <;> simp [parse_notice_posts_from_html, h2e]
  · by_cases h1 : s1.isEmpty = true
    · rw [List.isEmpty_iff.mp h1]
      by_cases h2 : s2.isEmpty = true
      · rw [List.isEmpty_iff.mp h2]
        by_cases h3 : s3.isEmpty = true
        · rw [List.isEmpty_iff.mp h3]
          rfl
        · have h3e : s3.isEmpty = false := by revert h3; cases s3 <;> simp
          simp [parse_notice_posts_from_html, firstNonemptyStrategy, List.find?, h3e]
      · have h2e : s2.isEmpty = false := by revert h2; cases s2 <;> simp
        simp [parse_notice_posts_from_html, firstNonemptyStrategy, List.find?, h2e]
    · have h1e : s1.isEmpty = false := by revert h1; cases s1 <;> simp
      simp [parse_notice_posts_from_html, firstNonemptyStrategy, List.find?, h1e]

/-- C6 witness: the dispatch at concrete strategy outputs: fallback to the
regex strategy when the structured ones are empty, and priority of the first
strategy when it is nonempty. -/
theorem c6_witness :
    parse_notice_posts_from_html [] [] [cp1, cp2] = kalSortedUniq [cp1, cp2] ∧
    parse_notice_posts_from_html [pA] [pB] [pC] = kalSortedUniq [pA] := by
  have h := c6_strategy_priority [] [] [cp1, cp2] [pB] [pC]
  have h2 := c6_strategy_priority [pA] [pB] [pC] [] []
  exact ⟨h.1 rfl rfl (by decide), (h2.2.1 (by decide)).1⟩

/-- C7 counterexample: two distinct posts sharing one date are re-sorted by the
KALMATE watcher into descending seq_no order instead of keeping their original
relative order, refuting the claim that date ties retain input order. -/
theorem c7_counterexample :
    kalSortedUniq [cp1, cp2] = [cp2, cp1] ∧ cp1 ≠ cp2 ∧
    date_to_int cp1.date = date_to_int cp2.date := by
  refine ⟨by decide, by decide, by decide⟩

/-- C7 amended: both re-sorts order posts by extracted date descending, and a
post without a parseable date never precedes a dated one; the agent sort is
stable on its date key (equal dates keep input order), while the KALMATE sort
is stable only on its full key of date and numeric id, so equal dates are
ordered by seq_no descending as the counterexample shows. -/
theorem c7_amended (l : List Post) :
    ((kalSortDesc l).Pairwise (fun a b => date_to_int b.date ≤ date_to_int a.date)) ∧
    ((kalSortDesc l).Pairwise
      (fun a b => date_to_int a.date = -1 → date_to_int b.date = -1)) ∧
    (∀ c : Int × Int, (kalSortDesc l).filter (fun p => decide (sort_key_post p = c)) =
      l.filter (fun p => decide (sort_key_post p = c))) ∧
    ((agentSortDesc l).Pairwise (fun a b => lexLe3 (key_func b) (key_func a) = true)) ∧
    ((agentSortDesc l).Pairwise
      (fun a b => key_func a = (0, 0, 0) → key_func b = (0, 0, 0))) ∧
    (∀ c : Nat × Nat × Nat, (agentSortDesc l).filter (fun p => decide (key_func p = c)) =
      l.filter (fun p => decide (key_func p = c))) := by
  have hkal := pairwise_pySortDescBy kalPostLe kalPostLe_total kalPostLe_trans l
  have hag := pairwise_pySortDescBy agentPostLe agentPostLe_total agentPostLe_trans l
  refine ⟨?_, ?_, ?_, hag, ?_, ?_⟩
  · exact hkal.imp (fun h => kalPostLe_date _ _ h)
  · refine hkal.imp ?_
    intro a b h ha
    have hd := kalPostLe_date a b h
    have hge := neg_one_le_date_to_int b.date
    omega
  · intro c
    refine filter_pySortDescBy kalPostLe kalPostLe_total kalPostLe_trans _ ?_ l
    intro x z hx hz
    rw [decide_eq_true_eq] at hx hz
    rw [kalPostLe, hx, hz]
    exact lexLe2_refl c
  · refine hag.imp ?_
    intro a b h ha
    simp only [agentPostLe] at h
    rw [ha] at h
    exact lexLe3_zero _ h
  · intro c
    refine filter_pySortDescBy agentPostLe agentPostLe_total agentPostLe_trans _ ?_ l
    intro x z hx hz
    rw [decide_eq_true_eq] at hx hz
    rw [agentPostLe, hx, hz]
    exact lexLe3_refl c

/-- C7 witness: the amended ordering facts at the concrete tied input. -/
theorem c7_witness :
    (kalSortDesc [cp1, cp2]).Pairwise
      (fun a b => date_to_int b.date ≤ date_to_int a.date) ∧
    (∀ c : Nat × Nat × Nat,
      (agentSortDesc [cp1, cp2]).filter (fun p => decide (key_func p = c)) =
        [cp1, cp2].filter (fun p => decide (key_func p = c))) := by
  have h := c7_amended [cp1, cp2]
  exact ⟨h.1, h.2.2.2.2.2⟩

/-- C8: a run on which extraction yielded zero posts is a complete no-op for
both watchers: nothing is sent, the seen dict and the baseline marker are
unchanged, and no filesystem write happens; the run returns normally. -/
theorem c8_empty_extraction_noop (fr fc flag : Bool) (n : Int) (seen : SeenDict)
    (now : Int) (ok : Bool) :
    kalmateRun fr flag n seen [] now ok =
      { seen := seen, flag := flag, sent := none, fs := [] } ∧
    agentRun fc flag n seen [] now ok =
      { seen := seen, flag := flag, sent := none, fs := [] } := by
  constructor
  · rw [kalmateRun_eq]
    rw [if_neg (by simp [show (kalSortedUniq ([] : List Post)).isEmpty = true from rfl])]
    rw [if_neg (by simp [show kalSortedUniq ([] : List Post) = [] from rfl])]
  · rw [agentRun_eq, if_pos (show ([] : List Post).isEmpty = true from rfl)]

/-- C8 witness: a concrete empty-extraction run leaves the state alone. -/
theorem c8_witness :
    kalmateRun true false 10 [("100000", oldRec)] [] 3 true =
      { seen := [("100000", oldRec)], flag := false, sent := none, fs := [] } ∧
    agentRun false true 10 [] [] 3 false =
      { seen := [], flag := true, sent := none, fs := [] } :=
  ⟨(c8_empty_extraction_noop true true false 10 [("100000", oldRec)] 3 true).1,
   (c8_empty_extraction_noop false false true 10 [] 3 false).2⟩

/-- C9 counterexample: save_seen performs a single direct in-place write of the
state file; its effect trace holds no temporary-file write and no rename,
refuting the claim that the save writes to a temporary location and renames it
into place. -/
theorem c9_counterexample :
    save_seen [("100000", oldRec)] = [FsOp.writeFile STATE_FILE [("100000", oldRec)]] ∧
    (save_seen [("100000", oldRec)]).all (fun op => !isRename op) = true := by
  constructor <;> decide

/-- C9 amended: the save operation of both watchers writes the serialized seen
mapping directly into the state file in place, as its only filesystem effect;
no temporary location and no rename are involved (a crash mid-write can
therefore leave a malformed state file, which the permissive load treats as
empty). -/
theorem c9_amended (d : SeenDict) :
    save_seen d = [FsOp.writeFile STATE_FILE d] ∧
    ∀ op ∈ save_seen d, isRename op = false := by
  refine ⟨rfl, ?_⟩
  intro op hop
  rcases List.mem_singleton.mp hop with rfl
  rfl

/-- C9 witness: the in-place write trace at a concrete mapping. -/
theorem c9_witness :
    save_seen [] = [FsOp.writeFile STATE_FILE []] ∧
    isRename (FsOp.writeFile STATE_FILE []) = false := by
  have h := c9_amended []
  exact ⟨h.1, h.2 (FsOp.writeFile STATE_FILE []) (by rw [h.1]; exact List.mem_singleton_self _)⟩

/-- C10 counterexample: a KALMATE baseline run observing a post whose id is
already recorded overwrites the stored record with fresh metadata and a fresh
timestamp, refuting the claim that a record of a present id is never
overwritten by any subsequent run. -/
theorem c10_counterexample :
    dictGet? [("100000", oldRec)] "100000" = some oldRec ∧
    (kalmateRun true false 10 [("100000", oldRec)] [pDup] 5 true).seen =
      [("100000", seenRecordOf pDup 5)] ∧
    seenRecordOf pDup 5 ≠ oldRec := by
  refine ⟨by decide, by decide, by decide⟩

/-- C10 amended: in steady mode (baseline not pending, no force flag) both
watchers create records only for ids not yet present and leave every present
record untouched; and no run of either watcher ever deletes a record. A
baseline or snapshot run, however, rewrites the record of every observed id,
as the counterexample shows. -/
theorem c10_amended (fr fc flag : Bool) (n : Int) (seen : SeenDict) (posts : List Post)
    (now : Int) (ok : Bool) (k : String) :
    ((fr && !flag) = false → dictContains seen k = true →
      dictGet? (kalmateRun fr flag n seen posts now ok).seen k = dictGet? seen k) ∧
    ((!flag || fc) = false → dictContains seen k = true →
      dictGet? (agentRun fc flag n seen posts now ok).seen k = dictGet? seen k) ∧
    (dictContains seen k = true →
      dictContains (kalmateRun fr flag n seen posts now ok).seen k = true) ∧
    (dictContains seen k = true →
      dictContains (agentRun fc flag n seen posts now ok).seen k = true) := by
  refine ⟨?_, ?_, ?_, ?_⟩
  · intro h1 hk
    rw [kalmateRun_eq, if_neg (by simp [h1])]
    split_ifs with h2
    · refine dictGet_registerAll_ne seen _ now k ?_
      intro p hp heq
      have hpf := List.mem_filter.mp ((mem_pySortDescBy kalPostLe p _).mp hp)
      rw [heq, hk] at hpf
      simpa using hpf.2
    · rfl
  · intro h1 hk
    rw [agentRun_eq]
    split_ifs with h0 h2 h3
    · rfl
    · exact absurd h2 (by simp [h1])
    · refine dictGet_registerAll_ne seen _ now k ?_
      intro p hp heq
      have hpf := List.mem_filter.mp hp
      rw [heq, hk] at hpf
      simpa using hpf.2
    · rfl
  · intro hk
    rw [kalmateRun_eq]
    split_ifs with h1 h2
    · exact (dictContains_registerAll _ _ _ _).mpr (Or.inl hk)
    · exact (dictContains_registerAll _ _ _ _).mpr (Or.inl hk)
    · exact hk
  · intro hk
    rw [agentRun_eq]
    split_ifs with h0 h1 h2
    · exact hk
    · exact (dictContains_registerAll _ _ _ _).mpr (Or.inl hk)
    · exact (dictContains_registerAll _ _ _ _).mpr (Or.inl hk)
    · exact hk

/-- C10 witness: a concrete steady run preserves the present record and never
deletes records. -/
theorem c10_witness :
    dictGet? (kalmateRun false true 10 [("A", oldRec)] [pB] 5 true).seen "A" =
      dictGet? [("A", oldRec)] "A" ∧
    dictContains (agentRun false true 10 [("A", oldRec)] [pB] 5 true).seen "A" = true := by
  have h := c10_amended false false true 10 [("A", oldRec)] [pB] 5 true "A"
  exact ⟨h.1 (by decide) (by decide), h.2.2.2 (by decide)⟩

end Kalc
